import Mathlib

/-!
Verification of the character-grid display engine of the
internet-radio-lcd-screen repository.

The definitions below are a shallow embedding of the Rust sources:

* src/app/src/display.rs : cursor/segment geometry, the wrapping text writer
  (the primitive character display is modelled by a trace of the operations
  issued to it, plus a reference device that interprets such a trace);
* src/app/src/widgets.rs : the scrolling label (marquee) widget, the plain
  label, and the either (variant switch) combinator;
* src/app/src/state.rs : the player state and diff application.

Rust u8 arithmetic is modelled on Nat with an explicit reduction modulo 256
wherever the source performs u8 addition or subtraction.  Rust string slicing
by byte index, which panics when the index is not a character boundary, is
modelled with Option (none corresponds to the panic).
-/

/-! ## Geometry model (src/app/src/display.rs) -/

def SCREEN_WIDTH : Nat := 20

def SCREEN_HEIGHT : Nat := 4

structure CursorPosition where
  row : Nat
  column : Nat
deriving DecidableEq, Repr

/-- The while loop of CursorPosition::offset: while column >= SCREEN_WIDTH,
increment the row (u8 wrap-around) and decrease the column.  Every iteration
decreases the column by SCREEN_WIDTH >= 1, so a fuel equal to the starting
column bounds the iteration count. -/
def wrapColumnAux : Nat → Nat → Nat → CursorPosition
  | 0, row, column => { row := row, column := column }
  | fuel + 1, row, column =>
    if SCREEN_WIDTH ≤ column then
      wrapColumnAux fuel ((row + 1) % 256) (column - SCREEN_WIDTH)
    else { row := row, column := column }

def wrapColumn (row column : Nat) : CursorPosition :=
  wrapColumnAux column row column

/-- CursorPosition::offset.  The source adds a u8 offset to the u8 column
(wrapping modulo 256) and then carries whole rows while the column is at
least SCREEN_WIDTH. -/
def CursorPosition.offset (p : CursorPosition) (offset : Nat) : CursorPosition :=
  wrapColumn p.row ((p.column + offset) % 256)

structure Segment where
  position : CursorPosition
  length : Nat
deriving DecidableEq, Repr

/-- Segment::split.  The tail length is the u8 difference length - offset
(wrapping modulo 256, faithful to release-mode u8 arithmetic). -/
def Segment.split (s : Segment) (offset : Nat) : Segment × Segment :=
  ({ position := s.position, length := offset },
   { position := s.position.offset offset,
     length := (s.length + 256 - offset) % 256 })

/-- The cell sequence of a segment: the cursor positions of its cells in
order, each obtained from the segment start by CursorPosition::offset. -/
def Segment.cells (s : Segment) : List CursorPosition :=
  (List.range s.length).map (fun j => s.position.offset j)

/-! ## The primitive character display, as a trace of operations -/

/-- One call to the CharacterDisplay trait. -/
inductive DisplayOp where
  | clear : DisplayOp
  | moveCursor : CursorPosition → DisplayOp
  | writeChar : Char → DisplayOp
deriving DecidableEq, Repr

/-- WrappingTextDisplay: the current segment (cursor position plus remaining
cell budget) together with the trace of operations issued to the inner
character display during the current write_to call. -/
structure WrappingTextDisplay where
  segment : Segment
  trace : List DisplayOp
deriving DecidableEq, Repr

/-- First half of WrappingTextDisplay::write_char: when the column has
reached the grid width, advance to the next row at column 0 and issue an
explicit move_cursor. -/
def WrappingTextDisplay.wrapIfNeeded (d : WrappingTextDisplay) : WrappingTextDisplay :=
  if SCREEN_WIDTH ≤ d.segment.position.column then
    { segment :=
        { position := { row := (d.segment.position.row + 1) % 256, column := 0 },
          length := d.segment.length },
      trace := d.trace ++
        [DisplayOp.moveCursor { row := (d.segment.position.row + 1) % 256, column := 0 }] }
  else d

/-- WrappingTextDisplay::write_char: wrap to the next row if needed, then, if
the cell budget is not exhausted, write the character and advance. -/
def WrappingTextDisplay.writeChar (d0 : WrappingTextDisplay) (c : Char) : WrappingTextDisplay :=
  let d := d0.wrapIfNeeded
  if 0 < d.segment.length then
    { segment :=
        { position :=
            { row := d.segment.position.row,
              column := (d.segment.position.column + 1) % 256 },
          length := d.segment.length - 1 },
      trace := d.trace ++ [DisplayOp.writeChar c] }
  else d

/-- WrappingTextDisplay::write_str: write each character in turn. -/
def WrappingTextDisplay.writeStr (d : WrappingTextDisplay) (s : List Char) : WrappingTextDisplay :=
  s.foldl WrappingTextDisplay.writeChar d

/-- The padding loop of write_to: while the budget is positive, write a
space.  Each such write consumes one cell, so the loop runs exactly
segment.length times; the fuel argument bounds the iteration count. -/
def WrappingTextDisplay.padAux : Nat → WrappingTextDisplay → WrappingTextDisplay
  | 0, d => d
  | fuel + 1, d =>
    if 0 < d.segment.length then WrappingTextDisplay.padAux fuel (d.writeChar ' ')
    else d

def WrappingTextDisplay.pad (d : WrappingTextDisplay) : WrappingTextDisplay :=
  WrappingTextDisplay.padAux d.segment.length d

/-- WrappingTextDisplay::write_to: install the segment, move the cursor to
its start, write the value's characters, then pad the remaining budget with
spaces.  The resulting trace is the full sequence of character-display calls
issued by this write_to call. -/
def writeTo (segment : Segment) (s : List Char) : WrappingTextDisplay :=
  (WrappingTextDisplay.writeStr
    { segment := segment, trace := [DisplayOp.moveCursor segment.position] } s).pad

/-- The characters sent to the device by a trace, in order. -/
def writtenChars (ops : List DisplayOp) : List Char :=
  ops.filterMap (fun op =>
    match op with
    | DisplayOp.writeChar c => some c
    | _ => none)

/-! Emitted-operation view of the writer, used by the proofs: each writer
step appends a computable delta to the trace. -/

/-- The operations a single write_char call appends to the trace. -/
def emitChar (d : WrappingTextDisplay) (c : Char) : List DisplayOp :=
  (if SCREEN_WIDTH ≤ d.segment.position.column then
    [DisplayOp.moveCursor { row := (d.segment.position.row + 1) % 256, column := 0 }]
  else []) ++
  (if 0 < d.segment.length then [DisplayOp.writeChar c] else [])

/-- The operations write_str appends to the trace. -/
def emitStr (d : WrappingTextDisplay) : List Char → List DisplayOp
  | [] => []
  | c :: s => emitChar d c ++ emitStr (d.writeChar c) s

/-- The operations the padding loop appends to the trace. -/
def emitPadAux : Nat → WrappingTextDisplay → List DisplayOp
  | 0, _ => []
  | fuel + 1, d =>
    if 0 < d.segment.length then emitChar d ' ' ++ emitPadAux fuel (d.writeChar ' ')
    else []

def emitPad (d : WrappingTextDisplay) : List DisplayOp :=
  emitPadAux d.segment.length d

/-! ## A reference character display device -/

/-- A reference model of the primitive character display: a cursor and an
unbounded grid of characters.  write_char writes at the cursor and advances
one cell to the right; there is no device-side wrapping. -/
structure Device where
  cursor : CursorPosition
  grid : CursorPosition → Char

def DisplayOp.apply (d : Device) : DisplayOp → Device
  | DisplayOp.clear =>
    { cursor := { row := 0, column := 0 }, grid := fun _ => ' ' }
  | DisplayOp.moveCursor p => { d with cursor := p }
  | DisplayOp.writeChar c =>
    { cursor := { row := d.cursor.row, column := d.cursor.column + 1 },
      grid := fun q => if q = d.cursor then c else d.grid q }

def runOps (d : Device) (ops : List DisplayOp) : Device :=
  ops.foldl DisplayOp.apply d

/-- Checks that a trace never relies on device-side wrapping: starting from
the given row and column, every write happens strictly inside a row
(column < SCREEN_WIDTH), and every cursor move is issued exactly when the
column has reached the grid width and targets the next row at column 0.
Returns the final row and column, or none on a violation. -/
def wrapCheck : Nat → Nat → List DisplayOp → Option (Nat × Nat)
  | row, col, [] => some (row, col)
  | row, col, DisplayOp.writeChar _ :: rest =>
    if col < SCREEN_WIDTH then wrapCheck row (col + 1) rest else none
  | row, col, DisplayOp.moveCursor p :: rest =>
    if SCREEN_WIDTH ≤ col ∧ p = { row := (row + 1) % 256, column := 0 } then
      wrapCheck p.row p.column rest
    else none
  | _, _, DisplayOp.clear :: _ => none

/-- The cells covered by a run of len cells whose linear column start is col
on row row, without the modulo-256 reduction of the u8 embedding.  For
segments whose column arithmetic stays inside u8 this agrees with
Segment.cells; it satisfies convenient recurrences used by the frame
proofs. -/
def linCells (row col len : Nat) : List CursorPosition :=
  (List.range len).map (fun j => wrapColumn row (col + j))

/-! ## Scrolling label (src/app/src/widgets.rs) -/

/-- The UTF-8 encoded length of one character, as in Rust's char::len_utf8. -/
def charLenUtf8 (c : Char) : Nat :=
  if c.toNat < 0x80 then 1
  else if c.toNat < 0x800 then 2
  else if c.toNat < 0x10000 then 3
  else 4

/-- Rust char::is_whitespace: the Unicode White_Space property. -/
def rustIsWhitespace (c : Char) : Bool :=
  let n := c.toNat
  (0x09 ≤ n && n ≤ 0x0D) || n == 0x20 || n == 0x85 || n == 0xA0 ||
  n == 0x1680 || (0x2000 ≤ n && n ≤ 0x200A) || n == 0x2028 || n == 0x2029 ||
  n == 0x202F || n == 0x205F || n == 0x3000

/-- Rust byte slicing text[b..] on a UTF-8 string, as the character suffix:
some suffix when b is a character-boundary byte index, none (a panic in the
source) otherwise. -/
def dropBytes : List Char → Nat → Option (List Char)
  | s, 0 => some s
  | [], _ + 1 => none
  | c :: s, b + 1 =>
    if charLenUtf8 c ≤ b + 1 then dropBytes s (b + 1 - charLenUtf8 c) else none

/-- char_indices: each character paired with its byte index, starting at b. -/
def charIndicesAux (b : Nat) : List Char → List (Nat × Char)
  | [] => []
  | c :: s => (b, c) :: charIndicesAux (b + charLenUtf8 c) s

def MAX_SCROLL : Nat := 6

def WAIT_BEFORE_SCROLLING_TICKS_COUNT : Nat := 2

def CHARACTERS_REMAINING_RESET_COUNT : Nat := 6

/-- The iterator pipeline in ScrollingLabel::update_scroll:
char_indices().enumerate().skip_while(n < MAX_SCROLL - 1 and not whitespace)
.skip(1).find(not whitespace), keeping the byte index of the found
character. -/
def scanTarget (visible : List Char) : Option Nat :=
  (((((charIndicesAux 0 visible).enum).dropWhile
      (fun p => decide (p.1 < MAX_SCROLL - 1) && !rustIsWhitespace p.2.2)).drop 1).find?
      (fun p => !rustIsWhitespace p.2.2)).map (fun p => p.2.1)

/-- Byte index of the first character that is not whitespace, scanning from
byte offset b.  Part of the plain recursive description of the scan. -/
def findNonWs (b : Nat) : List Char → Option Nat
  | [] => none
  | c :: s => if rustIsWhitespace c then findNonWs (b + charLenUtf8 c) s else some b

/-- Plain recursive description of the scroll scan: advance past up to
MAX_SCROLL - 1 leading non-whitespace characters (stopping early at a
whitespace character), skip one further character whether or not it is
whitespace, and return the byte index of the next non-whitespace
character. -/
def wordScan (n b : Nat) : List Char → Option Nat
  | [] => none
  | c :: s =>
    if n < MAX_SCROLL - 1 && !rustIsWhitespace c then
      wordScan (n + 1) (b + charLenUtf8 c) s
    else findNonWs (b + charLenUtf8 c) s

/-- The widget event type; the tick payload (a time instant) is never
inspected, so it is omitted. -/
inductive WidgetEvent where
  | Tick : WidgetEvent
deriving DecidableEq, Repr

/-- ScrollingLabel state.  The data parameter T of the source is modelled by
its rendered character list, so the cached text and the incoming data share
the type List Char. -/
structure ScrollingLabel where
  needs_repainting : Bool
  start_position : Nat
  wait_ticks_remaining : Nat
  segment : Segment
  text : Option (List Char)
deriving DecidableEq, Repr

def ScrollingLabel.new (segment : Segment) : ScrollingLabel :=
  { needs_repainting := true, start_position := 0, wait_ticks_remaining := 0,
    segment := segment, text := none }

def ScrollingLabel.reset_scroll (l : ScrollingLabel) : ScrollingLabel :=
  { l with needs_repainting := true, start_position := 0,
           wait_ticks_remaining := WAIT_BEFORE_SCROLLING_TICKS_COUNT }

/-- ScrollingLabel::update_scroll.  generate_text caches the rendered data
on first use; the byte slice of the cached text at start_position is modelled
with dropBytes (none corresponds to the slicing panic). -/
def ScrollingLabel.update_scroll (l0 : ScrollingLabel) (data : List Char) :
    Option ScrollingLabel :=
  let text := l0.text.getD data
  let l := { l0 with text := some text }
  if text.length ≤ l.segment.length then some l
  else if 0 < l.wait_ticks_remaining then
    some { l with wait_ticks_remaining := l.wait_ticks_remaining - 1 }
  else
    let l := { l with needs_repainting := true }
    match dropBytes text l.start_position with
    | none => none
    | some visible_text =>
      if visible_text.length ≤ CHARACTERS_REMAINING_RESET_COUNT then
        some l.reset_scroll
      else
        match scanTarget visible_text with
        | some i => some { l with start_position := l.start_position + i }
        | none => some l.reset_scroll

def ScrollingLabel.event (l : ScrollingLabel) (e : WidgetEvent) (data : List Char) :
    Option ScrollingLabel :=
  match e with
  | WidgetEvent.Tick => l.update_scroll data

def ScrollingLabel.force_repaint (l : ScrollingLabel) (_data : List Char) : ScrollingLabel :=
  ScrollingLabel.reset_scroll { l with text := none }

def ScrollingLabel.update (l : ScrollingLabel) (old_data data : List Char) : ScrollingLabel :=
  if old_data ≠ data then l.force_repaint data else l

/-- ScrollingLabel::paint: when dirty, render the byte-slice of the cached
text starting at start_position into the segment, returning the operations
issued to the display; none corresponds to the slicing panic. -/
def ScrollingLabel.paint (l : ScrollingLabel) (data : List Char) :
    Option (ScrollingLabel × List DisplayOp) :=
  if l.needs_repainting then
    let text := l.text.getD data
    match dropBytes text l.start_position with
    | none => none
    | some visible_text =>
      some ({ l with needs_repainting := false, text := some text },
            (writeTo l.segment visible_text).trace)
  else some (l, [])

/-- The states a ScrollingLabel can reach through its widget interface,
starting from a freshly constructed label. -/
inductive ScrollReachable : ScrollingLabel → Prop where
  | init (segment : Segment) : ScrollReachable (ScrollingLabel.new segment)
  | tick {l l2 : ScrollingLabel} (data : List Char) :
      ScrollReachable l → l.event WidgetEvent.Tick data = some l2 → ScrollReachable l2
  | upd {l : ScrollingLabel} (old_data data : List Char) :
      ScrollReachable l → ScrollReachable (l.update old_data data)
  | force {l : ScrollingLabel} (data : List Char) :
      ScrollReachable l → ScrollReachable (l.force_repaint data)
  | paintStep {l l2 : ScrollingLabel} {ops : List DisplayOp} (data : List Char) :
      ScrollReachable l → l.paint data = some (l2, ops) → ScrollReachable l2

/-- The safety invariant of a ScrollingLabel: the start offset is a valid
character-boundary byte index into the cached text, and is 0 while the cache
is empty. -/
def ScrollInv (l : ScrollingLabel) : Prop :=
  (∀ t, l.text = some t → (dropBytes t l.start_position).isSome) ∧
  (l.text = none → l.start_position = 0)

/-! ## Player state and diff application (src/app/src/state.rs) -/

inductive PipelineState where
  | Null | VoidPending | Ready | Paused | Playing
deriving DecidableEq, Repr

/-- A diff field for an optional value: unchanged, explicitly cleared, or
explicitly set (rradio_messages::OptionDiff; modelled from the spec's
description of diff fields, the crate is an external protocol
dependency). -/
inductive OptionDiff (α : Type) where
  | NoChange : OptionDiff α
  | ChangedToNone : OptionDiff α
  | ChangedToSome : α → OptionDiff α
deriving DecidableEq, Repr

def OptionDiff.into_option {α : Type} : OptionDiff α → Option (Option α)
  | OptionDiff.NoChange => none
  | OptionDiff.ChangedToNone => some none
  | OptionDiff.ChangedToSome a => some (some a)

def update_value {α : Type} (current_value : α) (diff_value : Option α) : α :=
  diff_value.getD current_value

def update_option {α : Type} (current_value : Option α) (diff_value : OptionDiff α) :
    Option α :=
  update_value current_value diff_value.into_option

/-- Placeholder for the protocol-defined station record (shared by
reference counting in the source; modelled by value). -/
abbrev Station := Nat

/-- Placeholder for the protocol-defined track tags record. -/
abbrev TrackTags := Nat

/-- Placeholder for std::time::Duration. -/
abbrev TrackTime := Nat

/-- Placeholder for the protocol-defined ping measurement result. -/
abbrev PingTimes := Nat

/-- Placeholder for the shared station-not-found message. -/
abbrev StationIndexText := List Char

/-- Placeholder for the shared player error. -/
abbrev PlayerError := Nat

structure PlayerState where
  pipeline_state : PipelineState
  current_station : Option Station
  current_track_index : Nat
  current_track_tags : Option TrackTags
  volume : Int
  buffering : Nat
  track_duration : Option TrackTime
  track_position : Option TrackTime
  ping_times : PingTimes
  station_not_found : Option StationIndexText
  current_error : Option PlayerError
  temperature : Nat
deriving DecidableEq, Repr

structure PlayerStateDiff where
  pipeline_state : Option PipelineState
  current_station : OptionDiff Station
  current_track_index : Option Nat
  current_track_tags : OptionDiff TrackTags
  volume : Option Int
  buffering : Option Nat
  track_duration : OptionDiff TrackTime
  track_position : OptionDiff TrackTime
  ping_times : Option PingTimes
deriving DecidableEq, Repr

def PlayerState.default : PlayerState :=
  { pipeline_state := PipelineState.Null, current_station := none,
    current_track_index := 0, current_track_tags := none, volume := -1,
    buffering := 0, track_duration := none, track_position := none,
    ping_times := 0, station_not_found := none, current_error := none,
    temperature := 255 }

/-- PlayerState::apply_diff. -/
def PlayerState.apply_diff (s0 : PlayerState) (diff : PlayerStateDiff) : PlayerState :=
  let s :=
    match diff.current_station with
    | OptionDiff.ChangedToSome _ =>
      { s0 with station_not_found := none, current_error := none }
    | _ => s0
  { s with
    pipeline_state := update_value s.pipeline_state diff.pipeline_state,
    current_station := update_option s.current_station diff.current_station,
    current_track_index := update_value s.current_track_index diff.current_track_index,
    current_track_tags := update_option s.current_track_tags diff.current_track_tags,
    volume := update_value s.volume diff.volume,
    buffering := update_value s.buffering diff.buffering,
    track_duration := update_option s.track_duration diff.track_duration,
    track_position := update_option s.track_position diff.track_position,
    ping_times := update_value s.ping_times diff.ping_times }

/-! ## Widget combinators: the either (variant switch) widget and Label -/

/-- A widget implementation over private state σ and data type Data: the
four lifecycle operations of the Widget trait.  paint returns the new state
together with the operations issued to the display. -/
structure WidgetImpl (σ Data : Type) where
  event : σ → Data → σ
  update : σ → Data → Data → σ
  force_repaint : σ → Data → σ
  paint : σ → Data → σ × List DisplayOp

/-- The Either data type of widgets.rs (named WEither to avoid the core
library name). -/
inductive WEither (α β : Type) where
  | A : α → WEither α β
  | B : β → WEither α β
deriving DecidableEq, Repr

/-- EitherWidget as a widget implementation: the state is the pair of the
two inner widget states, and every lifecycle call dispatches on the variant
of the data.  update force-repaints the newly active widget when the
variant changed. -/
def eitherWidget {σa σb α β : Type} (wa : WidgetImpl σa α) (wb : WidgetImpl σb β) :
    WidgetImpl (σa × σb) (WEither α β) :=
  { event := fun s d =>
      match d with
      | WEither.A a => (wa.event s.1 a, s.2)
      | WEither.B b => (s.1, wb.event s.2 b),
    update := fun s old_data d =>
      match old_data, d with
      | WEither.A o, WEither.A n => (wa.update s.1 o n, s.2)
      | WEither.B o, WEither.B n => (s.1, wb.update s.2 o n)
      | WEither.B _, WEither.A n => (wa.force_repaint s.1 n, s.2)
      | WEither.A _, WEither.B n => (s.1, wb.force_repaint s.2 n),
    force_repaint := fun s d =>
      match d with
      | WEither.A a => (wa.force_repaint s.1 a, s.2)
      | WEither.B b => (s.1, wb.force_repaint s.2 b),
    paint := fun s d =>
      match d with
      | WEither.A a =>
        let r := wa.paint s.1 a
        ((r.1, s.2), r.2)
      | WEither.B b =>
        let r := wb.paint s.2 b
        ((s.1, r.1), r.2) }

/-- A recorded lifecycle call, used to observe exactly which calls an outer
widget makes on an inner widget. -/
inductive WidgetCall (Data : Type) where
  | eventCall : Data → WidgetCall Data
  | updateCall : Data → Data → WidgetCall Data
  | forceRepaintCall : Data → WidgetCall Data
  | paintCall : Data → WidgetCall Data
deriving DecidableEq, Repr

/-- A mock widget whose state is the list of calls it has received. -/
def mockWidget (Data : Type) : WidgetImpl (List (WidgetCall Data)) Data :=
  { event := fun s d => s ++ [WidgetCall.eventCall d],
    update := fun s o n => s ++ [WidgetCall.updateCall o n],
    force_repaint := fun s d => s ++ [WidgetCall.forceRepaintCall d],
    paint := fun s d => (s ++ [WidgetCall.paintCall d], []) }

inductive TextAlignment where
  | Left | Right
deriving DecidableEq, Repr

structure LabelState where
  needs_repainting : Bool
deriving DecidableEq, Repr

/-- Right alignment with width truncation, as the format string of
Label::paint: take at most width characters and left-pad with spaces. -/
def rightAligned (width : Nat) (s : List Char) : List Char :=
  List.replicate (width - (s.take width).length) ' ' ++ s.take width

/-- The Label leaf widget: dirty iff the data changed since the last paint
or a repaint was forced. -/
def labelWidget (Data : Type) [DecidableEq Data] (render : Data → List Char)
    (alignment : TextAlignment) (segment : Segment) : WidgetImpl LabelState Data :=
  { event := fun s _ => s,
    update := fun s o n => if o ≠ n then { needs_repainting := true } else s,
    force_repaint := fun _ _ => { needs_repainting := true },
    paint := fun s d =>
      if s.needs_repainting then
        ({ needs_repainting := false },
          match alignment with
          | TextAlignment.Left => (writeTo segment (render d)).trace
          | TextAlignment.Right =>
            (writeTo segment (rightAligned segment.length (render d))).trace)
      else (s, []) }

/-! # Theorems -/

/-! ## Geometry lemmas -/

theorem wrapColumnAux_fuel (f1 : Nat) : ∀ (f2 row column : Nat), column ≤ f1 → column ≤ f2 →
    wrapColumnAux f1 row column = wrapColumnAux f2 row column := by
  induction f1 with
  | zero =>
    intro f2 row column h1 h2
    have hc : column = 0 := by omega
    subst hc
    cases f2 with
    | zero => rfl
    | succ f2 => simp [wrapColumnAux, SCREEN_WIDTH]
  | succ f1 ih =>
    intro f2 row column h1 h2
    cases f2 with
    | zero =>
      have hc : column = 0 := by omega
      subst hc
      simp [wrapColumnAux, SCREEN_WIDTH]
    | succ f2 =>
      simp only [wrapColumnAux]
      split
      case isTrue h =>
        exact ih f2 _ _ (by simp only [SCREEN_WIDTH] at h ⊢; omega)
          (by simp only [SCREEN_WIDTH] at h ⊢; omega)
      case isFalse h => rfl

theorem wrapColumn_step (row column : Nat) (h : SCREEN_WIDTH ≤ column) :
    wrapColumn row column = wrapColumn ((row + 1) % 256) (column - SCREEN_WIDTH) := by
  have hpos : 0 < column := by simp only [SCREEN_WIDTH] at h; omega
  obtain ⟨m, rfl⟩ : ∃ m, column = m + 1 := ⟨column - 1, by omega⟩
  simp only [wrapColumn, wrapColumnAux, if_pos h]
  exact wrapColumnAux_fuel m _ _ _ (by simp only [SCREEN_WIDTH] at h ⊢; omega) le_rfl

theorem wrapColumn_base (row column : Nat) (h : ¬ SCREEN_WIDTH ≤ column) :
    wrapColumn row column = { row := row, column := column } := by
  cases column with
  | zero => rfl
  | succ m => simp only [wrapColumn, wrapColumnAux, if_neg h]


/-- wrapColumnAux computes row + column / SCREEN_WIDTH (mod 256) and
column % SCREEN_WIDTH whenever the fuel suffices. -/
theorem wrapColumnAux_eq (fuel : Nat) : ∀ (row column : Nat), row < 256 → column ≤ fuel →
    wrapColumnAux fuel row column =
      { row := (row + column / SCREEN_WIDTH) % 256,
        column := column % SCREEN_WIDTH } := by
  induction fuel with
  | zero =>
    intro row column hrow hfuel
    have hc : column = 0 := by omega
    subst hc
    simp only [wrapColumnAux, SCREEN_WIDTH, CursorPosition.mk.injEq, and_true, true_and]
    omega
  | succ fuel ih =>
    intro row column hrow hfuel
    simp only [wrapColumnAux]
    split
    case isTrue h =>
      rw [ih ((row + 1) % 256) (column - SCREEN_WIDTH) (Nat.mod_lt _ (by norm_num))
        (by simp only [SCREEN_WIDTH] at h ⊢; omega)]
      simp only [SCREEN_WIDTH, CursorPosition.mk.injEq] at h ⊢
      omega
    case isFalse h =>
      simp only [SCREEN_WIDTH, CursorPosition.mk.injEq] at h ⊢
      omega

theorem wrapColumn_eq (row column : Nat) (hrow : row < 256) :
    wrapColumn row column =
      { row := (row + column / SCREEN_WIDTH) % 256,
        column := column % SCREEN_WIDTH } :=
  wrapColumnAux_eq column row column hrow le_rfl

/-- CursorPosition::offset without u8 overflow: the row advances by the
carry (column + offset) / SCREEN_WIDTH and the column becomes
(column + offset) % SCREEN_WIDTH. -/
theorem offset_eq (p : CursorPosition) (n : Nat) (hrow : p.row < 256)
    (hn : p.column + n ≤ 255) :
    p.offset n =
      { row := (p.row + (p.column + n) / SCREEN_WIDTH) % 256,
        column := (p.column + n) % SCREEN_WIDTH } := by
  unfold CursorPosition.offset
  rw [Nat.mod_eq_of_lt (by omega), wrapColumn_eq _ _ hrow]

/-- Offsets compose as long as the u8 column addition does not overflow. -/
theorem offset_offset (p : CursorPosition) (a b : Nat) (hrow : p.row < 256)
    (hab : p.column + a + b ≤ 255) :
    (p.offset a).offset b = p.offset (a + b) := by
  rw [offset_eq p a hrow (by omega), offset_eq p (a + b) hrow (by omega)]
  rw [offset_eq _ b (Nat.mod_lt _ (by norm_num))
    (by have := Nat.mod_le (p.column + a) SCREEN_WIDTH
        simp only [SCREEN_WIDTH] at this ⊢; omega)]
  simp only [SCREEN_WIDTH, CursorPosition.mk.injEq]
  omega

/-! ## Claim C2: CursorPosition::offset -/

/-- Claim C2 (as stated, refuted): the claim predicts that offset lands at
column = offset % SCREEN_WIDTH and row = row + offset / SCREEN_WIDTH.  At
row 0, column 19, offset 1 the code wraps to row 1, column 0, while the
claim predicts row 0, column 1. -/
theorem claim2_counterexample :
    CursorPosition.offset { row := 0, column := 19 } 1 ≠
      { row := 0 + 1 / SCREEN_WIDTH, column := 1 % SCREEN_WIDTH } := by decide

/-- Claim C2 (amended): for a valid position (column < grid width, row a u8
value) and an offset whose u8 column addition does not overflow,
CursorPosition::offset wraps exactly (column + offset) / SCREEN_WIDTH full
rows — the resulting row is row + (column + offset) / SCREEN_WIDTH, reduced
modulo 256 — and lands at column = (column + offset) % SCREEN_WIDTH,
wrapping repeatedly rather than just once for large offsets. -/
theorem claim2_theorem (p : CursorPosition) (n : Nat) (hrow : p.row < 256)
    (_hcol : p.column < SCREEN_WIDTH) (hn : p.column + n ≤ 255) :
    p.offset n =
      { row := (p.row + (p.column + n) / SCREEN_WIDTH) % 256,
        column := (p.column + n) % SCREEN_WIDTH } :=
  offset_eq p n hrow hn

theorem claim2_witness :
    CursorPosition.offset { row := 1, column := 5 } 47 =
      { row := (1 + (5 + 47) / SCREEN_WIDTH) % 256,
        column := (5 + 47) % SCREEN_WIDTH } :=
  claim2_theorem { row := 1, column := 5 } 47 (by decide) (by decide) (by decide)

/-! ## Claim C6: Segment::split -/

/-- Claim C6: for every segment whose cell arithmetic stays inside u8
(row and length are u8 values and the column addition cannot overflow) and
every offset at most the length, split yields a head of length offset at
the original position and a tail of the remaining length at the position
advanced by offset cells, the two lengths sum to the original length, and
the concatenation of the head's cell sequence with the tail's equals the
original cell sequence.  Splitting at offset = length yields a tail of
length 0. -/
theorem claim6_theorem (s : Segment) (off : Nat) (hoff : off ≤ s.length)
    (hrow : s.position.row < 256) (hlen : s.length ≤ 255)
    (hcol : s.position.column + s.length ≤ 256) :
    (s.split off).1.length = off ∧
    (s.split off).2.length = s.length - off ∧
    (s.split off).1.cells ++ (s.split off).2.cells = s.cells := by
  have h2 : (s.length + 256 - off) % 256 = s.length - off := by omega
  refine ⟨rfl, h2, ?_⟩
  show ((List.range off).map (fun j => s.position.offset j)) ++
      ((List.range ((s.length + 256 - off) % 256)).map
        (fun j => (s.position.offset off).offset j)) =
      (List.range s.length).map (fun j => s.position.offset j)
  rw [h2]
  have h3 : s.length = off + (s.length - off) := by omega
  conv_rhs => rw [h3, List.range_add]
  rw [List.map_append, List.map_map]
  congr 1
  apply List.map_congr_left
  intro j hj
  rw [List.mem_range] at hj
  show (s.position.offset off).offset j = s.position.offset (off + j)
  exact offset_offset s.position off j hrow (by omega)

theorem claim6_witness :
    ((Segment.mk ⟨0, 18⟩ 6).split 3).1.length = 3 ∧
    ((Segment.mk ⟨0, 18⟩ 6).split 3).2.length = 6 - 3 ∧
    ((Segment.mk ⟨0, 18⟩ 6).split 3).1.cells ++ ((Segment.mk ⟨0, 18⟩ 6).split 3).2.cells =
      (Segment.mk ⟨0, 18⟩ 6).cells :=
  claim6_theorem (Segment.mk ⟨0, 18⟩ 6) 3 (by decide) (by decide) (by decide) (by decide)

/-! ## Wrapping text writer lemmas -/

/-- Case description of a single write_char call. -/
theorem writeChar_eq (d : WrappingTextDisplay) (c : Char) :
    d.writeChar c =
      if SCREEN_WIDTH ≤ d.segment.position.column then
        if 0 < d.segment.length then
          { segment :=
              { position := { row := (d.segment.position.row + 1) % 256, column := 1 },
                length := d.segment.length - 1 },
            trace := d.trace ++
              [DisplayOp.moveCursor { row := (d.segment.position.row + 1) % 256, column := 0 },
               DisplayOp.writeChar c] }
        else
          { segment :=
              { position := { row := (d.segment.position.row + 1) % 256, column := 0 },
                length := d.segment.length },
            trace := d.trace ++
              [DisplayOp.moveCursor { row := (d.segment.position.row + 1) % 256, column := 0 }] }
      else
        if 0 < d.segment.length then
          { segment :=
              { position :=
                  { row := d.segment.position.row,
                    column := (d.segment.position.column + 1) % 256 },
                length := d.segment.length - 1 },
            trace := d.trace ++ [DisplayOp.writeChar c] }
        else d := by
  unfold WrappingTextDisplay.writeChar WrappingTextDisplay.wrapIfNeeded
  by_cases h1 : SCREEN_WIDTH ≤ d.segment.position.column <;>
    by_cases h2 : 0 < d.segment.length <;>
    simp [h1, h2]

theorem writeChar_trace (d : WrappingTextDisplay) (c : Char) :
    (d.writeChar c).trace = d.trace ++ emitChar d c := by
  rw [writeChar_eq]
  unfold emitChar
  by_cases h1 : SCREEN_WIDTH ≤ d.segment.position.column <;>
    by_cases h2 : 0 < d.segment.length <;>
    simp [h1, h2]

theorem writeChar_length (d : WrappingTextDisplay) (c : Char) :
    (d.writeChar c).segment.length = d.segment.length - 1 := by
  rw [writeChar_eq]
  by_cases h1 : SCREEN_WIDTH ≤ d.segment.position.column <;>
    by_cases h2 : 0 < d.segment.length <;>
    simp [h1, h2] <;> omega

theorem writtenChars_append (a b : List DisplayOp) :
    writtenChars (a ++ b) = writtenChars a ++ writtenChars b := by
  simp [writtenChars]

theorem writtenChars_cons_move (p : CursorPosition) (ops : List DisplayOp) :
    writtenChars (DisplayOp.moveCursor p :: ops) = writtenChars ops := by
  simp [writtenChars]

theorem writtenChars_emitChar (d : WrappingTextDisplay) (c : Char) :
    writtenChars (emitChar d c) = if 0 < d.segment.length then [c] else [] := by
  unfold emitChar
  by_cases h1 : SCREEN_WIDTH ≤ d.segment.position.column <;>
    by_cases h2 : 0 < d.segment.length <;>
    simp [h1, h2, writtenChars]

theorem writeStr_nil (d : WrappingTextDisplay) : d.writeStr [] = d := rfl

theorem writeStr_cons (d : WrappingTextDisplay) (c : Char) (s : List Char) :
    d.writeStr (c :: s) = (d.writeChar c).writeStr s := rfl

theorem writeStr_trace (s : List Char) : ∀ d : WrappingTextDisplay,
    (d.writeStr s).trace = d.trace ++ emitStr d s := by
  induction s with
  | nil => intro d; simp [writeStr_nil, emitStr]
  | cons c s ih =>
    intro d
    rw [writeStr_cons, ih, writeChar_trace]
    simp [emitStr]

theorem writeStr_length (s : List Char) : ∀ d : WrappingTextDisplay,
    (d.writeStr s).segment.length = d.segment.length - s.length := by
  induction s with
  | nil => intro d; simp [writeStr_nil]
  | cons c s ih =>
    intro d
    rw [writeStr_cons, ih, writeChar_length]
    simp only [List.length_cons]
    omega

theorem writtenChars_emitStr (s : List Char) : ∀ d : WrappingTextDisplay,
    writtenChars (emitStr d s) = s.take d.segment.length := by
  induction s with
  | nil => intro d; simp [emitStr, writtenChars]
  | cons c s ih =>
    intro d
    show writtenChars (emitChar d c ++ emitStr (d.writeChar c) s) = _
    rw [writtenChars_append, writtenChars_emitChar, ih, writeChar_length]
    cases hl : d.segment.length with
    | zero => simp
    | succ m => simp

theorem padAux_trace (fuel : Nat) : ∀ d : WrappingTextDisplay,
    (WrappingTextDisplay.padAux fuel d).trace = d.trace ++ emitPadAux fuel d := by
  induction fuel with
  | zero => intro d; simp [WrappingTextDisplay.padAux, emitPadAux]
  | succ fuel ih =>
    intro d
    show (if 0 < d.segment.length then WrappingTextDisplay.padAux fuel (d.writeChar ' ')
          else d).trace = _
    by_cases h : 0 < d.segment.length
    · simp only [h, if_pos, emitPadAux, ih, writeChar_trace]
      simp [h]
    · simp [h, emitPadAux]

theorem writtenChars_emitPadAux (fuel : Nat) : ∀ d : WrappingTextDisplay,
    d.segment.length ≤ fuel →
    writtenChars (emitPadAux fuel d) = List.replicate d.segment.length ' ' := by
  induction fuel with
  | zero =>
    intro d h
    have hz : d.segment.length = 0 := by omega
    rw [hz]
    simp [emitPadAux, writtenChars]
  | succ fuel ih =>
    intro d h
    show writtenChars (if 0 < d.segment.length then
      emitChar d ' ' ++ emitPadAux fuel (d.writeChar ' ') else []) = _
    by_cases hl : 0 < d.segment.length
    · rw [if_pos hl, writtenChars_append, writtenChars_emitChar, if_pos hl,
        ih (d.writeChar ' ') (by rw [writeChar_length]; omega), writeChar_length]
      cases hc : d.segment.length with
      | zero => omega
      | succ m => simp [List.replicate_succ]
    · have hz : d.segment.length = 0 := by omega
      rw [if_neg hl, hz]
      simp [writtenChars]

theorem pad_trace (d : WrappingTextDisplay) : d.pad.trace = d.trace ++ emitPad d :=
  padAux_trace d.segment.length d

theorem writtenChars_emitPad (d : WrappingTextDisplay) :
    writtenChars (emitPad d) = List.replicate d.segment.length ' ' :=
  writtenChars_emitPadAux d.segment.length d le_rfl

theorem writeTo_trace (seg : Segment) (s : List Char) :
    (writeTo seg s).trace =
      DisplayOp.moveCursor seg.position ::
        (emitStr { segment := seg, trace := [DisplayOp.moveCursor seg.position] } s ++
         emitPad (WrappingTextDisplay.writeStr
           { segment := seg, trace := [DisplayOp.moveCursor seg.position] } s)) := by
  unfold writeTo
  rw [pad_trace, writeStr_trace]
  simp

/-! ## Claim C3: padding short values -/

/-- Claim C3: writing a value with fewer characters than the segment length
emits every character of the value in order, then pads the remaining budget
with spaces, so exactly segment.length characters are written to the device
and the entire segment is overwritten. -/
theorem claim3_theorem (seg : Segment) (s : List Char) (h : s.length < seg.length) :
    writtenChars (writeTo seg s).trace = s ++ List.replicate (seg.length - s.length) ' ' ∧
    (writtenChars (writeTo seg s).trace).length = seg.length := by
  have key : writtenChars (writeTo seg s).trace =
      s ++ List.replicate (seg.length - s.length) ' ' := by
    rw [writeTo_trace, writtenChars_cons_move, writtenChars_append,
      writtenChars_emitStr]
    show s.take seg.length ++
      writtenChars (emitPad (WrappingTextDisplay.writeStr _ s)) = _
    rw [writtenChars_emitPad, writeStr_length]
    show s.take seg.length ++ List.replicate (seg.length - s.length) ' ' = _
    rw [List.take_of_length_le (by omega)]
  refine ⟨key, ?_⟩
  rw [key]
  simp only [List.length_append, List.length_replicate]
  omega

theorem claim3_witness :
    writtenChars (writeTo (Segment.mk ⟨1, 2⟩ 5) "abc".toList).trace =
      "abc".toList ++ List.replicate (5 - "abc".toList.length) ' ' ∧
    (writtenChars (writeTo (Segment.mk ⟨1, 2⟩ 5) "abc".toList).trace).length = 5 :=
  claim3_theorem (Segment.mk ⟨1, 2⟩ 5) "abc".toList (by decide)

/-! ## Claim C5: explicit cursor moves at row boundaries -/

theorem wrapCheck_emitChar (d : WrappingTextDisplay) (c : Char) (rest : List DisplayOp) :
    wrapCheck d.segment.position.row d.segment.position.column (emitChar d c ++ rest) =
      wrapCheck (d.writeChar c).segment.position.row
        (d.writeChar c).segment.position.column rest := by
  rw [writeChar_eq]
  unfold emitChar
  by_cases h1 : SCREEN_WIDTH ≤ d.segment.position.column <;>
    by_cases h2 : 0 < d.segment.length
  · simp only [h1, h2, if_pos, if_true]
    show wrapCheck _ _ (DisplayOp.moveCursor _ :: DisplayOp.writeChar c :: rest) = _
    rw [wrapCheck]
    rw [if_pos ⟨h1, rfl⟩]
    rw [wrapCheck]
    rw [if_pos (by simp [SCREEN_WIDTH])]
  · simp only [h1, h2, if_pos, if_neg, if_true, if_false]
    show wrapCheck _ _ (DisplayOp.moveCursor _ :: rest) = _
    rw [wrapCheck]
    rw [if_pos ⟨h1, rfl⟩]
  · simp only [h1, h2, if_pos, if_neg, if_true, if_false]
    show wrapCheck _ _ (DisplayOp.writeChar c :: rest) = _
    rw [wrapCheck]
    rw [if_pos (by omega)]
    have hc : (d.segment.position.column + 1) % 256 = d.segment.position.column + 1 := by
      simp only [SCREEN_WIDTH] at h1
      omega
    rw [hc]
  · simp only [h1, h2, if_neg, if_false]
    show wrapCheck _ _ rest = _
    rfl

theorem wrapCheck_emitStr (s : List Char) : ∀ (d : WrappingTextDisplay) (rest : List DisplayOp),
    wrapCheck d.segment.position.row d.segment.position.column (emitStr d s ++ rest) =
      wrapCheck (d.writeStr s).segment.position.row
        (d.writeStr s).segment.position.column rest := by
  induction s with
  | nil => intro d rest; simp [emitStr, writeStr_nil]
  | cons c s ih =>
    intro d rest
    show wrapCheck _ _ ((emitChar d c ++ emitStr (d.writeChar c) s) ++ rest) = _
    rw [List.append_assoc, wrapCheck_emitChar, ih, writeStr_cons]

theorem wrapCheck_emitPadAux (fuel : Nat) : ∀ (d : WrappingTextDisplay) (rest : List DisplayOp),
    wrapCheck d.segment.position.row d.segment.position.column (emitPadAux fuel d ++ rest) =
      wrapCheck (WrappingTextDisplay.padAux fuel d).segment.position.row
        (WrappingTextDisplay.padAux fuel d).segment.position.column rest := by
  induction fuel with
  | zero => intro d rest; simp [emitPadAux, WrappingTextDisplay.padAux]
  | succ fuel ih =>
    intro d rest
    simp only [emitPadAux, WrappingTextDisplay.padAux]
    by_cases h : 0 < d.segment.length
    · rw [if_pos h, if_pos h, List.append_assoc, wrapCheck_emitChar, ih]
    · rw [if_neg h, if_neg h]
      simp

/-- Claim C5: every write_to call first moves the cursor to the segment
start, and the rest of the trace never relies on device-side wrapping:
every character is written at a column strictly below the grid width, and a
cursor move is issued exactly when the writer's column has reached the grid
width, targeting the next row at column 0. -/
theorem claim5_theorem (seg : Segment) (s : List Char) :
    (writeTo seg s).trace.head? = some (DisplayOp.moveCursor seg.position) ∧
    (wrapCheck seg.position.row seg.position.column
      ((writeTo seg s).trace.drop 1)).isSome := by
  constructor
  · rw [writeTo_trace]
    rfl
  · rw [writeTo_trace]
    simp only [List.drop_succ_cons, List.drop_zero]
    show (wrapCheck
      ({ segment := seg, trace := [DisplayOp.moveCursor seg.position] } :
        WrappingTextDisplay).segment.position.row
      ({ segment := seg, trace := [DisplayOp.moveCursor seg.position] } :
        WrappingTextDisplay).segment.position.column
      (emitStr { segment := seg, trace := [DisplayOp.moveCursor seg.position] } s ++
        emitPad (WrappingTextDisplay.writeStr
          { segment := seg, trace := [DisplayOp.moveCursor seg.position] } s))).isSome
    rw [wrapCheck_emitStr]
    rw [← List.append_nil (emitPad (WrappingTextDisplay.writeStr
      { segment := seg, trace := [DisplayOp.moveCursor seg.position] } s))]
    rw [show emitPad (WrappingTextDisplay.writeStr
        { segment := seg, trace := [DisplayOp.moveCursor seg.position] } s) =
      emitPadAux (WrappingTextDisplay.writeStr
        { segment := seg, trace := [DisplayOp.moveCursor seg.position] } s).segment.length
        (WrappingTextDisplay.writeStr
          { segment := seg, trace := [DisplayOp.moveCursor seg.position] } s) from rfl]
    rw [wrapCheck_emitPadAux]
    simp [wrapCheck]

/-! ## Frame lemmas: writes land only on the segment's cells -/

theorem runOps_nil (dev : Device) : runOps dev [] = dev := rfl

theorem runOps_append (dev : Device) (a b : List DisplayOp) :
    runOps dev (a ++ b) = runOps (runOps dev a) b :=
  List.foldl_append DisplayOp.apply dev a b

theorem linCells_succ (row col m : Nat) :
    linCells row col (m + 1) = wrapColumn row col :: linCells row (col + 1) m := by
  simp only [linCells, List.range_succ_eq_map, List.map_cons, List.map_map, Nat.add_zero]
  congr 1
  apply List.map_congr_left
  intro j hj
  show wrapColumn row (col + Nat.succ j) = wrapColumn row (col + 1 + j)
  congr 1
  omega

theorem linCells_wrap (row col len : Nat) (h : SCREEN_WIDTH ≤ col) :
    linCells row col len = linCells ((row + 1) % 256) (col - SCREEN_WIDTH) len := by
  simp only [linCells]
  apply List.map_congr_left
  intro j hj
  rw [wrapColumn_step row (col + j) (by simp only [SCREEN_WIDTH] at h ⊢; omega)]
  congr 1
  simp only [SCREEN_WIDTH] at h ⊢
  omega

theorem cells_eq_linCells (s : Segment) (h : s.position.column + s.length ≤ 256) :
    s.cells = linCells s.position.row s.position.column s.length := by
  simp only [Segment.cells, linCells]
  apply List.map_congr_left
  intro j hj
  rw [List.mem_range] at hj
  show s.position.offset j = wrapColumn s.position.row (s.position.column + j)
  unfold CursorPosition.offset
  rw [Nat.mod_eq_of_lt (by omega)]

/-- One write_char call: the device cursor stays synchronized with the
writer's position, the writer's column stays at most the grid width, and
the grid changes only inside the writer's remaining cells, which shrink. -/
theorem frame_emitChar (d : WrappingTextDisplay) (dev : Device) (c : Char)
    (hsync : dev.cursor = d.segment.position)
    (hcol : d.segment.position.column ≤ SCREEN_WIDTH) :
    (runOps dev (emitChar d c)).cursor = (d.writeChar c).segment.position ∧
    (d.writeChar c).segment.position.column ≤ SCREEN_WIDTH ∧
    ∀ q, q ∉ linCells d.segment.position.row d.segment.position.column d.segment.length →
      ((runOps dev (emitChar d c)).grid q = dev.grid q ∧
       q ∉ linCells (d.writeChar c).segment.position.row
         (d.writeChar c).segment.position.column (d.writeChar c).segment.length) := by
  by_cases h1 : SCREEN_WIDTH ≤ d.segment.position.column <;>
    by_cases h2 : 0 < d.segment.length
  · -- wrap, then write
    have hwc : d.writeChar c =
        { segment :=
            { position := { row := (d.segment.position.row + 1) % 256, column := 1 },
              length := d.segment.length - 1 },
          trace := d.trace ++
            [DisplayOp.moveCursor { row := (d.segment.position.row + 1) % 256, column := 0 },
             DisplayOp.writeChar c] } := by
      rw [writeChar_eq, if_pos h1, if_pos h2]
    have hec : emitChar d c =
        [DisplayOp.moveCursor { row := (d.segment.position.row + 1) % 256, column := 0 },
         DisplayOp.writeChar c] := by
      unfold emitChar
      rw [if_pos h1, if_pos h2]
      rfl
    have hc20 : d.segment.position.column = SCREEN_WIDTH := le_antisymm hcol h1
    rw [hwc, hec]
    refine ⟨rfl, by simp [SCREEN_WIDTH], ?_⟩
    intro q hq
    rw [hc20, linCells_wrap _ _ _ le_rfl, Nat.sub_self] at hq
    obtain ⟨m, hm⟩ : ∃ m, d.segment.length = m + 1 := ⟨d.segment.length - 1, by omega⟩
    rw [hm, linCells_succ, wrapColumn_base _ _ (by simp [SCREEN_WIDTH])] at hq
    simp only [List.mem_cons, not_or] at hq
    constructor
    · show (if q = ({ row := (d.segment.position.row + 1) % 256, column := 0 } : CursorPosition)
        then c else dev.grid q) = dev.grid q
      exact if_neg hq.1
    · show q ∉ linCells ((d.segment.position.row + 1) % 256) 1 (d.segment.length - 1)
      rw [hm]
      exact hq.2
  · -- wrap with an exhausted budget: only the move is emitted
    have hz : d.segment.length = 0 := by omega
    have hwc : d.writeChar c =
        { segment :=
            { position := { row := (d.segment.position.row + 1) % 256, column := 0 },
              length := d.segment.length },
          trace := d.trace ++
            [DisplayOp.moveCursor { row := (d.segment.position.row + 1) % 256, column := 0 }] } := by
      rw [writeChar_eq, if_pos h1, if_neg h2]
    have hec : emitChar d c =
        [DisplayOp.moveCursor { row := (d.segment.position.row + 1) % 256, column := 0 }] := by
      unfold emitChar
      rw [if_pos h1, if_neg h2]
      rfl
    rw [hwc, hec]
    refine ⟨rfl, by simp [SCREEN_WIDTH], ?_⟩
    intro q hq
    refine ⟨rfl, ?_⟩
    show q ∉ linCells ((d.segment.position.row + 1) % 256) 0 d.segment.length
    rw [hz]
    simp [linCells]
  · -- plain write inside the row
    have hlt : d.segment.position.column < SCREEN_WIDTH := lt_of_not_le h1
    have hmod : (d.segment.position.column + 1) % 256 = d.segment.position.column + 1 := by
      simp only [SCREEN_WIDTH] at hlt
      omega
    have hwc : d.writeChar c =
        { segment :=
            { position :=
                { row := d.segment.position.row, column := d.segment.position.column + 1 },
              length := d.segment.length - 1 },
          trace := d.trace ++ [DisplayOp.writeChar c] } := by
      rw [writeChar_eq, if_neg h1, if_pos h2, hmod]
    have hec : emitChar d c = [DisplayOp.writeChar c] := by
      unfold emitChar
      rw [if_neg h1, if_pos h2]
      rfl
    rw [hwc, hec]
    refine ⟨?_, by simp only [SCREEN_WIDTH] at hlt ⊢; omega, ?_⟩
    · show ({ row := dev.cursor.row, column := dev.cursor.column + 1 } : CursorPosition) = _
      rw [hsync]
    · intro q hq
      obtain ⟨m, hm⟩ : ∃ m, d.segment.length = m + 1 := ⟨d.segment.length - 1, by omega⟩
      rw [hm, linCells_succ, wrapColumn_base _ _ h1] at hq
      simp only [List.mem_cons, not_or] at hq
      have hqne : q ≠ dev.cursor := by
        rw [hsync]
        intro hcontra
        exact hq.1 (by rw [hcontra])
      constructor
      · show (if q = dev.cursor then c else dev.grid q) = dev.grid q
        exact if_neg hqne
      · show q ∉ linCells d.segment.position.row (d.segment.position.column + 1)
          (d.segment.length - 1)
        rw [hm]
        exact hq.2
  · -- nothing to do
    have hwc : d.writeChar c = d := by
      rw [writeChar_eq, if_neg h1, if_neg h2]
    have hec : emitChar d c = [] := by
      unfold emitChar
      rw [if_neg h1, if_neg h2]
      rfl
    rw [hwc, hec]
    exact ⟨hsync, hcol, fun q hq => ⟨rfl, hq⟩⟩

theorem frame_emitStr (s : List Char) : ∀ (d : WrappingTextDisplay) (dev : Device),
    dev.cursor = d.segment.position → d.segment.position.column ≤ SCREEN_WIDTH →
    (runOps dev (emitStr d s)).cursor = (d.writeStr s).segment.position ∧
    (d.writeStr s).segment.position.column ≤ SCREEN_WIDTH ∧
    ∀ q, q ∉ linCells d.segment.position.row d.segment.position.column d.segment.length →
      ((runOps dev (emitStr d s)).grid q = dev.grid q ∧
       q ∉ linCells (d.writeStr s).segment.position.row
         (d.writeStr s).segment.position.column (d.writeStr s).segment.length) := by
  induction s with
  | nil =>
    intro d dev hsync hcol
    exact ⟨hsync, hcol, fun q hq => ⟨rfl, hq⟩⟩
  | cons c s ih =>
    intro d dev hsync hcol
    obtain ⟨hcur, hcol2, hframe⟩ := frame_emitChar d dev c hsync hcol
    obtain ⟨hcur2, hcol3, hframe2⟩ := ih (d.writeChar c) (runOps dev (emitChar d c)) hcur hcol2
    refine ⟨?_, hcol3, ?_⟩
    · show (runOps dev (emitChar d c ++ emitStr (d.writeChar c) s)).cursor = _
      rw [runOps_append]
      exact hcur2
    · intro q hq
      obtain ⟨hg1, hm1⟩ := hframe q hq
      obtain ⟨hg2, hm2⟩ := hframe2 q hm1
      refine ⟨?_, hm2⟩
      show (runOps dev (emitChar d c ++ emitStr (d.writeChar c) s)).grid q = dev.grid q
      rw [runOps_append, hg2, hg1]

theorem frame_emitPadAux (fuel : Nat) : ∀ (d : WrappingTextDisplay) (dev : Device),
    dev.cursor = d.segment.position → d.segment.position.column ≤ SCREEN_WIDTH →
    ∀ q, q ∉ linCells d.segment.position.row d.segment.position.column d.segment.length →
      (runOps dev (emitPadAux fuel d)).grid q = dev.grid q := by
  induction fuel with
  | zero =>
    intro d dev _ _ q _
    rfl
  | succ fuel ih =>
    intro d dev hsync hcol q hq
    show (runOps dev (if 0 < d.segment.length then
      emitChar d ' ' ++ emitPadAux fuel (d.writeChar ' ') else [])).grid q = dev.grid q
    by_cases h : 0 < d.segment.length
    · rw [if_pos h, runOps_append]
      obtain ⟨hcur, hcol2, hframe⟩ := frame_emitChar d dev ' ' hsync hcol
      obtain ⟨hg1, hm1⟩ := hframe q hq
      rw [ih (d.writeChar ' ') _ hcur hcol2 q hm1, hg1]
    · rw [if_neg h]
      rfl

/-! ## Claim C4: truncation of long values and the frame property -/

/-- Claim C4: writing a value with more characters than the segment length
emits exactly the first segment.length characters and silently drops the
rest, and no grid cell outside the segment is changed by the write.  The
segment is assumed to lie on the grid: its column is inside the row and its
cell arithmetic does not overflow u8 (otherwise the source's u8 additions
panic in debug builds). -/
theorem claim4_theorem (seg : Segment) (s : List Char) (dev : Device)
    (hlong : seg.length < s.length)
    (hcolv : seg.position.column < SCREEN_WIDTH)
    (hbound : seg.position.column + seg.length ≤ 256) :
    writtenChars (writeTo seg s).trace = s.take seg.length ∧
    (writtenChars (writeTo seg s).trace).length = seg.length ∧
    ∀ q, q ∉ seg.cells → (runOps dev (writeTo seg s).trace).grid q = dev.grid q := by
  have key : writtenChars (writeTo seg s).trace = s.take seg.length := by
    rw [writeTo_trace, writtenChars_cons_move, writtenChars_append, writtenChars_emitStr,
      writtenChars_emitPad, writeStr_length]
    show s.take seg.length ++ List.replicate (seg.length - s.length) ' ' = _
    rw [Nat.sub_eq_zero_of_le (le_of_lt hlong)]
    simp
  refine ⟨key, ?_, ?_⟩
  · rw [key, List.length_take]
    exact Nat.min_eq_left (le_of_lt hlong)
  · intro q hq
    rw [cells_eq_linCells seg hbound] at hq
    rw [writeTo_trace]
    show (runOps ({ cursor := seg.position, grid := dev.grid } : Device)
      (emitStr { segment := seg, trace := [DisplayOp.moveCursor seg.position] } s ++
       emitPad (WrappingTextDisplay.writeStr
         { segment := seg, trace := [DisplayOp.moveCursor seg.position] } s))).grid q =
      dev.grid q
    rw [runOps_append]
    obtain ⟨hcur, hcol2, hframe⟩ := frame_emitStr s
      { segment := seg, trace := [DisplayOp.moveCursor seg.position] }
      { cursor := seg.position, grid := dev.grid } rfl (le_of_lt hcolv)
    obtain ⟨hg1, hm1⟩ := hframe q hq
    have hg2 := frame_emitPadAux
      (WrappingTextDisplay.writeStr
        { segment := seg, trace := [DisplayOp.moveCursor seg.position] } s).segment.length
      (WrappingTextDisplay.writeStr
        { segment := seg, trace := [DisplayOp.moveCursor seg.position] } s)
      (runOps { cursor := seg.position, grid := dev.grid }
        (emitStr { segment := seg, trace := [DisplayOp.moveCursor seg.position] } s))
      hcur hcol2 q hm1
    rw [show emitPad (WrappingTextDisplay.writeStr
        { segment := seg, trace := [DisplayOp.moveCursor seg.position] } s) =
      emitPadAux (WrappingTextDisplay.writeStr
        { segment := seg, trace := [DisplayOp.moveCursor seg.position] } s).segment.length
        (WrappingTextDisplay.writeStr
          { segment := seg, trace := [DisplayOp.moveCursor seg.position] } s) from rfl]
    rw [hg2]
    exact hg1

theorem claim4_witness :
    writtenChars (writeTo (Segment.mk ⟨1, 18⟩ 4) "abcdef".toList).trace =
      "abcdef".toList.take 4 ∧
    (runOps (Device.mk ⟨0, 0⟩ (fun _ => ' '))
      (writeTo (Segment.mk ⟨1, 18⟩ 4) "abcdef".toList).trace).grid ⟨3, 7⟩ = ' ' := by
  have h := claim4_theorem (Segment.mk ⟨1, 18⟩ 4) "abcdef".toList
    (Device.mk ⟨0, 0⟩ (fun _ => ' ')) (by decide) (by decide) (by decide)
  exact ⟨h.1, (h.2.2 ⟨3, 7⟩ (by decide)).trans rfl⟩

/-! ## Scroll scan lemmas -/

theorem charLenUtf8_pos (c : Char) : 1 ≤ charLenUtf8 c := by
  unfold charLenUtf8
  split
  · omega
  split
  · omega
  split
  · omega
  · omega

theorem dropBytes_zero (t : List Char) : dropBytes t 0 = some t := by
  cases t <;> rfl

theorem dropBytes_cons_ge (c : Char) (cs : List Char) (n : Nat) (h : charLenUtf8 c ≤ n) :
    dropBytes (c :: cs) n = dropBytes cs (n - charLenUtf8 c) := by
  have hpos : 1 ≤ charLenUtf8 c := charLenUtf8_pos c
  obtain ⟨k, hk⟩ : ∃ k, n = k + 1 := ⟨n - 1, by omega⟩
  subst hk
  show (if charLenUtf8 c ≤ k + 1 then dropBytes cs (k + 1 - charLenUtf8 c) else none) = _
  rw [if_pos h]

theorem findNonWs_enumFrom (cs : List Char) : ∀ (m b : Nat),
    ((List.enumFrom m (charIndicesAux b cs)).find?
      (fun p => !rustIsWhitespace p.2.2)).map (fun p => p.2.1) = findNonWs b cs := by
  induction cs with
  | nil => intro m b; rfl
  | cons c cs ih =>
    intro m b
    cases hws : rustIsWhitespace c with
    | true => simp [charIndicesAux, List.enumFrom, List.find?_cons, hws, findNonWs, ih]
    | false => simp [charIndicesAux, List.enumFrom, List.find?_cons, hws, findNonWs]

theorem scanAux_eq (cs : List Char) : ∀ (n b : Nat),
    (((((List.enumFrom n (charIndicesAux b cs))).dropWhile
        (fun p => decide (p.1 < MAX_SCROLL - 1) && !rustIsWhitespace p.2.2)).drop 1).find?
        (fun p => !rustIsWhitespace p.2.2)).map (fun p => p.2.1) = wordScan n b cs := by
  induction cs with
  | nil => intro n b; rfl
  | cons c cs ih =>
    intro n b
    simp only [charIndicesAux, List.enumFrom, List.dropWhile_cons]
    by_cases hcond : (decide (n < MAX_SCROLL - 1) && !rustIsWhitespace c) = true
    · rw [if_pos hcond, ih (n + 1) (b + charLenUtf8 c)]
      simp only [wordScan]
      rw [if_pos hcond]
    · rw [if_neg hcond]
      simp only [List.drop_succ_cons, List.drop_zero]
      rw [findNonWs_enumFrom cs (n + 1) (b + charLenUtf8 c)]
      simp only [wordScan]
      rw [if_neg hcond]

theorem scanTarget_eq (v : List Char) : scanTarget v = wordScan 0 0 v :=
  scanAux_eq v 0 0

theorem findNonWs_boundary (cs : List Char) : ∀ (b i : Nat), findNonWs b cs = some i →
    b ≤ i ∧ ∃ c rest, dropBytes cs (i - b) = some (c :: rest) ∧
      rustIsWhitespace c = false := by
  induction cs with
  | nil => intro b i h; exact absurd h (by simp [findNonWs])
  | cons c cs ih =>
    intro b i h
    simp only [findNonWs] at h
    cases hws : rustIsWhitespace c with
    | false =>
      rw [hws] at h
      simp only [Bool.false_eq_true, if_false, ite_false, Option.some.injEq] at h
      subst h
      refine ⟨le_rfl, c, cs, ?_, hws⟩
      rw [Nat.sub_self, dropBytes_zero]
    | true =>
      rw [hws] at h
      simp only [if_true, ite_true] at h
      obtain ⟨hle, c2, rest, hdrop, hws2⟩ := ih _ _ h
      have hpos := charLenUtf8_pos c
      refine ⟨by omega, c2, rest, ?_, hws2⟩
      rw [dropBytes_cons_ge _ _ _ (by omega),
        show i - b - charLenUtf8 c = i - (b + charLenUtf8 c) from by omega]
      exact hdrop

theorem wordScan_boundary (cs : List Char) : ∀ (n b i : Nat), wordScan n b cs = some i →
    b ≤ i ∧ ∃ c rest, dropBytes cs (i - b) = some (c :: rest) ∧
      rustIsWhitespace c = false := by
  induction cs with
  | nil => intro n b i h; exact absurd h (by simp [wordScan])
  | cons c cs ih =>
    intro n b i h
    simp only [wordScan] at h
    have hpos := charLenUtf8_pos c
    by_cases hcond : (decide (n < MAX_SCROLL - 1) && !rustIsWhitespace c) = true
    · rw [if_pos hcond] at h
      obtain ⟨hle, c2, rest, hdrop, hws2⟩ := ih (n + 1) (b + charLenUtf8 c) i h
      refine ⟨by omega, c2, rest, ?_, hws2⟩
      rw [dropBytes_cons_ge _ _ _ (by omega),
        show i - b - charLenUtf8 c = i - (b + charLenUtf8 c) from by omega]
      exact hdrop
    · rw [if_neg hcond] at h
      obtain ⟨hle, c2, rest, hdrop, hws2⟩ := findNonWs_boundary cs (b + charLenUtf8 c) i h
      refine ⟨by omega, c2, rest, ?_, hws2⟩
      rw [dropBytes_cons_ge _ _ _ (by omega),
        show i - b - charLenUtf8 c = i - (b + charLenUtf8 c) from by omega]
      exact hdrop

theorem dropBytes_add (t : List Char) : ∀ (a b : Nat) (v w : List Char),
    dropBytes t a = some v → dropBytes v b = some w → dropBytes t (a + b) = some w := by
  induction t with
  | nil =>
    intro a b v w h1 h2
    cases a with
    | zero =>
      rw [dropBytes_zero] at h1
      injection h1 with h1
      subst h1
      rw [Nat.zero_add]
      exact h2
    | succ a => exact absurd h1 (by simp [dropBytes])
  | cons c t ih =>
    intro a b v w h1 h2
    cases a with
    | zero =>
      rw [dropBytes_zero] at h1
      injection h1 with h1
      subst h1
      rw [Nat.zero_add]
      exact h2
    | succ a =>
      have hpos := charLenUtf8_pos c
      by_cases hle : charLenUtf8 c ≤ a + 1
      · rw [dropBytes_cons_ge _ _ _ hle] at h1
        rw [show a + 1 + b = (a + b) + 1 from by omega,
          dropBytes_cons_ge _ _ _ (by omega),
          show (a + b) + 1 - charLenUtf8 c = (a + 1 - charLenUtf8 c) + b from by omega]
        exact ih _ _ _ _ h1 h2
      · exfalso
        have : dropBytes (c :: t) (a + 1) = none := by
          show (if charLenUtf8 c ≤ a + 1 then dropBytes t (a + 1 - charLenUtf8 c)
            else none) = none
          rw [if_neg hle]
        rw [this] at h1
        exact Option.noConfusion h1

/-! ## Claim C1: the scroll step -/

/-- Claim C1 (as stated, refuted): on a remainder with no whitespace at all
(so no whitespace-delimited boundary exists), the claim requires the start
offset to reset to 0, but the code advances it to 6: the scan stops after
MAX_SCROLL - 1 characters whether or not a whitespace character was passed,
skips one more character, and lands on the next non-whitespace character. -/
theorem claim1_counterexample :
    (ScrollingLabel.update_scroll
      { needs_repainting := false, start_position := 0, wait_ticks_remaining := 0,
        segment := Segment.mk ⟨0, 0⟩ 8, text := some "abcdefghijkl".toList }
      []).map (fun l => l.start_position) = some 6 ∧
    "abcdefghijkl".toList.all (fun c => !rustIsWhitespace c) = true ∧
    (6 : Nat) ≠ 0 := by
  refine ⟨by decide, by decide, by decide⟩

/-- Claim C1 (amended): on a tick where the cached text exceeds the segment
length, the wait counter is zero, and the visible remainder has more than
RESET_THRESHOLD characters, the scroll step advances past up to
MAX_SCROLL - 1 leading non-whitespace characters (stopping early at a
whitespace character), skips one further character whether or not it is
whitespace, and sets the start offset to the byte index of the next
non-whitespace character (which therefore need not start a
whitespace-delimited word); if no such character exists, the start offset
resets to 0 and the wait counter reloads.  Whenever the scan finds an
index, that index is a character boundary of the remainder holding a
non-whitespace character. -/
theorem claim1_theorem (l : ScrollingLabel) (data t v : List Char)
    (htext : l.text = some t)
    (hcnt : l.segment.length < t.length)
    (hwait : l.wait_ticks_remaining = 0)
    (hvis : dropBytes t l.start_position = some v)
    (hlen : CHARACTERS_REMAINING_RESET_COUNT < v.length) :
    l.update_scroll data = some (
      match wordScan 0 0 v with
      | some i => { l with needs_repainting := true,
                           start_position := l.start_position + i }
      | none => { l with needs_repainting := true, start_position := 0,
                         wait_ticks_remaining := WAIT_BEFORE_SCROLLING_TICKS_COUNT }) ∧
    (∀ i, wordScan 0 0 v = some i →
      ∃ c rest, dropBytes v i = some (c :: rest) ∧ rustIsWhitespace c = false) := by
  constructor
  · obtain ⟨nr, sp, wt, seg, tx⟩ := l
    simp only at htext hcnt hwait hvis ⊢
    subst htext
    subst hwait
    unfold ScrollingLabel.update_scroll
    simp only [Option.getD_some]
    rw [if_neg (by omega)]
    rw [if_neg (by omega)]
    rw [hvis]
    simp only
    rw [if_neg (by omega)]
    rw [scanTarget_eq]
    cases hws : wordScan 0 0 v with
    | some i => rfl
    | none => rfl
  · intro i hi
    obtain ⟨hle, c, rest, hdrop, hws⟩ := wordScan_boundary v 0 0 i hi
    refine ⟨c, rest, ?_, hws⟩
    simpa using hdrop

theorem claim1_witness :
    ScrollingLabel.update_scroll
      { needs_repainting := false, start_position := 0, wait_ticks_remaining := 0,
        segment := Segment.mk ⟨0, 0⟩ 8, text := some "hello brave new world".toList }
      [] = some (
        match wordScan 0 0 "hello brave new world".toList with
        | some i =>
          { needs_repainting := true, start_position := 0 + i,
            wait_ticks_remaining := 0, segment := Segment.mk ⟨0, 0⟩ 8,
            text := some "hello brave new world".toList }
        | none =>
          { needs_repainting := true, start_position := 0,
            wait_ticks_remaining := WAIT_BEFORE_SCROLLING_TICKS_COUNT,
            segment := Segment.mk ⟨0, 0⟩ 8,
            text := some "hello brave new world".toList }) ∧
    (∀ i, wordScan 0 0 "hello brave new world".toList = some i →
      ∃ c rest, dropBytes "hello brave new world".toList i = some (c :: rest) ∧
        rustIsWhitespace c = false) :=
  claim1_theorem
    { needs_repainting := false, start_position := 0, wait_ticks_remaining := 0,
      segment := Segment.mk ⟨0, 0⟩ 8, text := some "hello brave new world".toList }
    [] "hello brave new world".toList "hello brave new world".toList
    rfl (by decide) rfl rfl (by decide)

/-! ## Claim C7: ticks on text that fits -/

/-- Claim C7 (as stated, refuted): a tick on a widget whose rendered text
fits the segment can still change the cached text: when the cache is empty
(a fresh widget, or right after a forced repaint), the first tick
materializes it.  Here the cache changes from none to the rendered text
even though the text (2 characters) fits the 20-cell segment. -/
theorem claim7_counterexample :
    ((ScrollingLabel.new (Segment.mk ⟨0, 0⟩ 20)).event WidgetEvent.Tick "hi".toList).map
      (fun l => l.text) = some (some "hi".toList) ∧
    (ScrollingLabel.new (Segment.mk ⟨0, 0⟩ 20)).text = none ∧
    "hi".toList.length ≤ (Segment.mk ⟨0, 0⟩ 20).length := by
  refine ⟨by decide, rfl, by decide⟩

/-- Claim C7 (amended): when the cached text is present and fits within the
segment length, every tick leaves the entire widget state — start offset,
cached text, dirty flag, wait counter — unchanged; when the cache is empty,
a tick only materializes the cache with the rendered data and changes
nothing else (provided that data fits).  In both cases the rendered slice
never changes across any sequence of ticks. -/
theorem claim7_theorem (l : ScrollingLabel) (data : List Char) :
    (∀ t, l.text = some t → t.length ≤ l.segment.length →
      l.event WidgetEvent.Tick data = some l) ∧
    (l.text = none → data.length ≤ l.segment.length →
      l.event WidgetEvent.Tick data = some { l with text := some data }) := by
  constructor
  · intro t ht hfit
    obtain ⟨nr, sp, wt, seg, tx⟩ := l
    simp only at ht hfit ⊢
    subst ht
    show ScrollingLabel.update_scroll _ data = _
    unfold ScrollingLabel.update_scroll
    simp only [Option.getD_some]
    rw [if_pos hfit]
  · intro ht hfit
    obtain ⟨nr, sp, wt, seg, tx⟩ := l
    simp only at ht hfit ⊢
    subst ht
    show ScrollingLabel.update_scroll _ data = _
    unfold ScrollingLabel.update_scroll
    simp only [Option.getD_none]
    rw [if_pos hfit]

theorem claim7_witness :
    ScrollingLabel.event
      { needs_repainting := false, start_position := 0, wait_ticks_remaining := 1,
        segment := Segment.mk ⟨0, 0⟩ 10, text := some "abc".toList }
      WidgetEvent.Tick "xyz".toList =
      some { needs_repainting := false, start_position := 0, wait_ticks_remaining := 1,
             segment := Segment.mk ⟨0, 0⟩ 10, text := some "abc".toList } :=
  (claim7_theorem
    { needs_repainting := false, start_position := 0, wait_ticks_remaining := 1,
      segment := Segment.mk ⟨0, 0⟩ 10, text := some "abc".toList }
    "xyz".toList).1 "abc".toList rfl (by decide)

/-! ## Claim C10: the start offset is always a valid byte boundary -/

theorem scrollInv_new (seg : Segment) : ScrollInv (ScrollingLabel.new seg) := by
  constructor
  · intro t ht
    exact absurd ht (by simp [ScrollingLabel.new])
  · intro _
    rfl

theorem scrollInv_start_zero (l : ScrollingLabel) (h : l.start_position = 0) :
    ScrollInv l := by
  constructor
  · intro t ht
    rw [h, dropBytes_zero]
    rfl
  · intro _
    exact h

theorem scrollInv_force (l : ScrollingLabel) (data : List Char) :
    ScrollInv (l.force_repaint data) :=
  scrollInv_start_zero _ rfl

theorem scrollInv_update (l : ScrollingLabel) (old_data data : List Char)
    (h : ScrollInv l) : ScrollInv (l.update old_data data) := by
  unfold ScrollingLabel.update
  split
  · exact scrollInv_force l data
  · exact h

theorem inv_slice (l : ScrollingLabel) (data : List Char) (hinv : ScrollInv l) :
    ∃ v, dropBytes (l.text.getD data) l.start_position = some v := by
  cases htx : l.text with
  | none =>
    rw [Option.getD_none, hinv.2 htx, dropBytes_zero]
    exact ⟨data, rfl⟩
  | some t =>
    rw [Option.getD_some]
    exact Option.isSome_iff_exists.mp (hinv.1 t htx)

theorem scrollInv_some (l : ScrollingLabel) (t : List Char)
    (htx : l.text = some t) (h : (dropBytes t l.start_position).isSome) : ScrollInv l := by
  constructor
  · intro t2 ht2
    rw [htx] at ht2
    injection ht2 with ht2
    subst ht2
    exact h
  · intro habs
    rw [htx] at habs
    exact Option.noConfusion habs

theorem update_scroll_inv_some (data : List Char) (nr : Bool) (sp wt : Nat) (seg : Segment)
    (T v : List Char) (hv : dropBytes T sp = some v) :
    ∃ l2, ScrollingLabel.update_scroll
      { needs_repainting := nr, start_position := sp, wait_ticks_remaining := wt,
        segment := seg, text := some T } data = some l2 ∧ ScrollInv l2 := by
  unfold ScrollingLabel.update_scroll
  simp only [Option.getD_some]
  by_cases h1 : T.length ≤ seg.length
  · rw [if_pos h1]
    exact ⟨_, rfl, scrollInv_some _ T rfl
      (by show (dropBytes T sp).isSome; rw [hv]; rfl)⟩
  · rw [if_neg h1]
    by_cases h2 : 0 < wt
    · rw [if_pos h2]
      exact ⟨_, rfl, scrollInv_some _ T rfl
        (by show (dropBytes T sp).isSome; rw [hv]; rfl)⟩
    · rw [if_neg h2]
      simp only [hv]
      by_cases h3 : v.length ≤ CHARACTERS_REMAINING_RESET_COUNT
      · rw [if_pos h3]
        exact ⟨_, rfl, scrollInv_start_zero _ rfl⟩
      · rw [if_neg h3]
        cases hscan : scanTarget v with
        | some i =>
          rw [scanTarget_eq] at hscan
          obtain ⟨hle, c, rest, hdrop, hws⟩ := wordScan_boundary v 0 0 i hscan
          have hdrop2 : dropBytes v i = some (c :: rest) := by simpa using hdrop
          refine ⟨_, rfl, scrollInv_some _ T rfl ?_⟩
          show (dropBytes T (sp + i)).isSome
          rw [dropBytes_add T sp i v (c :: rest) hv hdrop2]
          rfl
        | none =>
          exact ⟨_, rfl, scrollInv_start_zero _ rfl⟩

theorem update_scroll_inv (l : ScrollingLabel) (data : List Char) (hinv : ScrollInv l) :
    ∃ l2, l.update_scroll data = some l2 ∧ ScrollInv l2 := by
  obtain ⟨nr, sp, wt, seg, tx⟩ := l
  cases tx with
  | none =>
    have hsp : sp = 0 := hinv.2 rfl
    subst hsp
    rw [show ScrollingLabel.update_scroll
      { needs_repainting := nr, start_position := 0, wait_ticks_remaining := wt,
        segment := seg, text := none } data =
      ScrollingLabel.update_scroll
      { needs_repainting := nr, start_position := 0, wait_ticks_remaining := wt,
        segment := seg, text := some data } data from rfl]
    exact update_scroll_inv_some data nr 0 wt seg data data (dropBytes_zero data)
  | some t =>
    obtain ⟨v, hv⟩ := Option.isSome_iff_exists.mp (hinv.1 t rfl)
    exact update_scroll_inv_some data nr sp wt seg t v hv

theorem paint_inv (l : ScrollingLabel) (data : List Char) (hinv : ScrollInv l) :
    ∃ l2 ops, l.paint data = some (l2, ops) ∧ ScrollInv l2 := by
  obtain ⟨v, hv⟩ := inv_slice l data hinv
  unfold ScrollingLabel.paint
  by_cases h : l.needs_repainting
  · rw [if_pos h]
    simp only [hv]
    refine ⟨_, _, rfl, scrollInv_some _ (l.text.getD data) rfl ?_⟩
    show (dropBytes (l.text.getD data) l.start_position).isSome
    rw [hv]
    rfl
  · rw [if_neg h]
    exact ⟨l, [], rfl, hinv⟩

/-- Claim C10: after any sequence of event, update, force_repaint, and
paint calls starting from a fresh ScrollingLabel, the start offset is a
valid character-boundary byte index into the cached text (and 0 while the
cache is empty), so the byte slices taken by update_scroll and paint are
always in bounds on a character boundary: the slicing panic branch is
unreachable. -/
theorem claim10_theorem (l : ScrollingLabel) (h : ScrollReachable l) :
    ScrollInv l ∧ ∀ data : List Char,
      (l.event WidgetEvent.Tick data).isSome ∧ (l.paint data).isSome := by
  have hinv : ScrollInv l := by
    induction h with
    | init seg => exact scrollInv_new seg
    | tick data hr heq ih =>
      obtain ⟨l3, h3, hinv3⟩ := update_scroll_inv _ data ih
      rw [show ScrollingLabel.event _ WidgetEvent.Tick data =
        ScrollingLabel.update_scroll _ data from rfl] at heq
      rw [heq] at h3
      injection h3 with h3
      rw [h3]
      exact hinv3
    | upd old_data data hr ih => exact scrollInv_update _ _ _ ih
    | force data hr => exact scrollInv_force _ _
    | paintStep data hr heq ih =>
      obtain ⟨l3, ops3, h3, hinv3⟩ := paint_inv _ data ih
      rw [heq] at h3
      injection h3 with h3
      rw [show l3 = _ from congrArg Prod.fst h3.symm] at hinv3
      exact hinv3
  refine ⟨hinv, fun data => ⟨?_, ?_⟩⟩
  · obtain ⟨l2, heq, _⟩ := update_scroll_inv l data hinv
    show (l.update_scroll data).isSome
    rw [heq]
    rfl
  · obtain ⟨l2, ops, heq, _⟩ := paint_inv l data hinv
    rw [heq]
    rfl

theorem claim10_witness :
    ((ScrollingLabel.new (Segment.mk ⟨2, 3⟩ 5)).event
      WidgetEvent.Tick "abcdefgh".toList).isSome ∧
    ((ScrollingLabel.new (Segment.mk ⟨2, 3⟩ 5)).paint "abcdefgh".toList).isSome :=
  (claim10_theorem _ (ScrollReachable.init (Segment.mk ⟨2, 3⟩ 5))).2 "abcdefgh".toList

/-! ## Claim C8: selecting a station clears the error fields -/

/-- Claim C8: applying a diff that explicitly sets the current station to a
new (non-empty) station to a state in which station_not_found and/or
current_error are set yields a state with both cleared, regardless of the
rest of the diff (the diff has no fields for these two values, so it cannot
touch them directly). -/
theorem claim8_theorem (s : PlayerState) (diff : PlayerStateDiff) (st : Station)
    (_hset : s.station_not_found.isSome ∨ s.current_error.isSome)
    (hdiff : diff.current_station = OptionDiff.ChangedToSome st) :
    (s.apply_diff diff).station_not_found = none ∧
    (s.apply_diff diff).current_error = none := by
  unfold PlayerState.apply_diff
  rw [hdiff]
  exact ⟨rfl, rfl⟩

theorem claim8_witness :
    (PlayerState.apply_diff
      { PlayerState.default with
          station_not_found := some "9".toList, current_error := some 3 }
      { pipeline_state := none, current_station := OptionDiff.ChangedToSome 7,
        current_track_index := none, current_track_tags := OptionDiff.NoChange,
        volume := some 11, buffering := none, track_duration := OptionDiff.NoChange,
        track_position := OptionDiff.NoChange,
        ping_times := none }).station_not_found = none ∧
    (PlayerState.apply_diff
      { PlayerState.default with
          station_not_found := some "9".toList, current_error := some 3 }
      { pipeline_state := none, current_station := OptionDiff.ChangedToSome 7,
        current_track_index := none, current_track_tags := OptionDiff.NoChange,
        volume := some 11, buffering := none, track_duration := OptionDiff.NoChange,
        track_position := OptionDiff.NoChange,
        ping_times := none }).current_error = none :=
  claim8_theorem
    { PlayerState.default with
        station_not_found := some "9".toList, current_error := some 3 }
    { pipeline_state := none, current_station := OptionDiff.ChangedToSome 7,
      current_track_index := none, current_track_tags := OptionDiff.NoChange,
      volume := some 11, buffering := none, track_duration := OptionDiff.NoChange,
      track_position := OptionDiff.NoChange, ping_times := none }
    7 (Or.inl (by decide)) rfl

/-! ## Claim C9: the either widget's update dispatch -/

/-- Claim C9: an update whose old and new data are in different variants
force-repaints the newly active inner widget with its freshly projected
data while the other inner widget receives no call at all; an update in an
unchanged variant delegates to the matching inner widget's update with both
projected values.  The mock widgets record every call they receive.  In
addition, with Label inner widgets: after painting variant A with value 7,
switching away and switching back with the same value 7 leaves the A label
dirty (it would repaint), even though a plain update with equal values
marks nothing dirty. -/
theorem claim9_theorem :
    (∀ (α β : Type) (sa : List (WidgetCall α)) (sb : List (WidgetCall β))
      (o n : α) (o2 n2 : β),
      (eitherWidget (mockWidget α) (mockWidget β)).update (sa, sb)
          (WEither.B o2) (WEither.A n) =
        (sa ++ [WidgetCall.forceRepaintCall n], sb) ∧
      (eitherWidget (mockWidget α) (mockWidget β)).update (sa, sb)
          (WEither.A o) (WEither.B n2) =
        (sa, sb ++ [WidgetCall.forceRepaintCall n2]) ∧
      (eitherWidget (mockWidget α) (mockWidget β)).update (sa, sb)
          (WEither.A o) (WEither.A n) =
        (sa ++ [WidgetCall.updateCall o n], sb) ∧
      (eitherWidget (mockWidget α) (mockWidget β)).update (sa, sb)
          (WEither.B o2) (WEither.B n2) =
        (sa, sb ++ [WidgetCall.updateCall o2 n2])) ∧
    ((eitherWidget
        (labelWidget Nat (fun k => List.replicate k 'x') TextAlignment.Left
          (Segment.mk ⟨0, 0⟩ 5))
        (labelWidget Unit (fun _ => "y".toList) TextAlignment.Left
          (Segment.mk ⟨1, 0⟩ 5))).update
      ((eitherWidget
        (labelWidget Nat (fun k => List.replicate k 'x') TextAlignment.Left
          (Segment.mk ⟨0, 0⟩ 5))
        (labelWidget Unit (fun _ => "y".toList) TextAlignment.Left
          (Segment.mk ⟨1, 0⟩ 5))).update
        (((labelWidget Nat (fun k => List.replicate k 'x') TextAlignment.Left
            (Segment.mk ⟨0, 0⟩ 5)).paint ⟨true⟩ 7).1, ⟨true⟩)
        (WEither.A 7) (WEither.B ()))
      (WEither.B ()) (WEither.A 7)).1.needs_repainting = true ∧
    ((labelWidget Nat (fun k => List.replicate k 'x') TextAlignment.Left
        (Segment.mk ⟨0, 0⟩ 5)).update ⟨false⟩ 7 7).needs_repainting = false ∧
    (((labelWidget Nat (fun k => List.replicate k 'x') TextAlignment.Left
        (Segment.mk ⟨0, 0⟩ 5)).paint ⟨true⟩ 7).1).needs_repainting = false := by
  refine ⟨?_, by decide, by decide, by decide⟩
  intro α β sa sb o n o2 n2
  exact ⟨rfl, rfl, rfl, rfl⟩
